import Mathlib

/-!
Shallow embedding of the compound-eye persistence layer (src/db.ts), the
schema migration (migrateStatusToDisposition), and the repository scanner
(src/scan.ts), together with theorems settling the specification claims.

Modelling conventions:
* SQLite tables are lists of row records held in a `DB` state; AUTOINCREMENT
  primary keys are explicit `next...Id` counters (sqlite_sequence semantics:
  ids strictly increase and are never reused).
* Timestamps (`strftime` at row-write time) are an abstract clock tick
  `DB.now : Nat`; every datetime function evaluated inside one SQL statement
  sees the same tick, so a single INSERT stamps `created_at = updated_at`.
* The per-connection SQLite pragma `foreign_keys` is carried in the state.
  `initDatabase` only issues `PRAGMA journal_mode = WAL`, so the flag keeps
  SQLite's documented default OFF; the `REFERENCES ... ON DELETE CASCADE`
  clauses declared in the DDL fire only when the flag is ON, which the model
  makes explicit by conditioning cascade/FK checks on the flag.
* Fallible statements return the (auto-committed) post-state together with an
  optional error; code that does not wrap statements in a transaction keeps
  the state changes made before a failure.
-/

structure ObservationRow where
  id : Nat
  text : String
  tags : Option String
  source : String
  disposition : String
  project : Option String
  created_at : Nat
  updated_at : Nat
deriving Repr, DecidableEq

structure ProjectRow where
  id : Nat
  name : String
  created_at : Nat
deriving Repr, DecidableEq

structure ActionRow where
  id : Nat
  description : String
  source : String
  reference : Option String
  project : Option String
  created_at : Nat
deriving Repr, DecidableEq

/-- Database state: the four tables of the DDL in `initDatabase`, the
AUTOINCREMENT counters, the per-connection `foreign_keys` pragma flag and the
storage engine clock. -/
structure DB where
  observations : List ObservationRow
  projects : List ProjectRow
  actions : List ActionRow
  action_observations : List (Nat × Nat)
  nextObservationId : Nat
  nextProjectId : Nat
  nextActionId : Nat
  foreign_keys : Bool
  now : Nat
deriving Repr, DecidableEq

/-- `initDatabase` on a fresh database file: empty tables, counters at 1.
The function's only pragma is `PRAGMA journal_mode = WAL`; it never issues
`PRAGMA foreign_keys = ON`, so the flag stays at SQLite's default OFF. -/
def initDatabase : DB :=
  { observations := [], projects := [], actions := [], action_observations := []
    nextObservationId := 1, nextProjectId := 1, nextActionId := 1
    foreign_keys := false, now := 0 }

/-- `INSERT OR IGNORE INTO projects (name) VALUES (?)` — insert-if-absent. -/
def ensureProject (db : DB) (name : String) : DB :=
  if db.projects.any (fun p => p.name = name) then db
  else
    { db with
      projects := db.projects ++ [⟨db.nextProjectId, name, db.now⟩]
      nextProjectId := db.nextProjectId + 1 }

structure ObservationCreate where
  text : String
  source : Option String
  project : Option String
deriving Repr, DecidableEq

/-- `createObservation`: JS truthiness on `data.project` (null and the empty
string are both falsy, so only a non-null non-empty project is ensured);
`data.source ?? "human"` replaces only an absent source, not a blank one;
the INSERT hardcodes disposition `'open'` and stamps both timestamps with the
same statement clock. -/
def createObservation (db : DB) (data : ObservationCreate) : DB × ObservationRow :=
  let db1 :=
    match data.project with
    | some p => if p = "" then db else ensureProject db p
    | none => db
  let src := data.source.getD "human"
  let row : ObservationRow :=
    { id := db1.nextObservationId, text := data.text, tags := none
      source := src, disposition := "open", project := data.project
      created_at := db1.now, updated_at := db1.now }
  ({ db1 with
      observations := db1.observations ++ [row]
      nextObservationId := db1.nextObservationId + 1 }, row)

structure ObservationUpdate where
  text : Option String
  source : Option String
  disposition : Option String
  project : Option String
deriving Repr, DecidableEq

/-- Apply the non-null fields of an `ObservationUpdate` to a row, stamping
`updated_at` (the `SET` list always appends the `updated_at` assignment). -/
def applyUpdate (u : ObservationUpdate) (now : Nat) (r : ObservationRow) : ObservationRow :=
  { r with
    text := u.text.getD r.text
    source := u.source.getD r.source
    disposition := u.disposition.getD r.disposition
    project := match u.project with | some p => some p | none => r.project
    updated_at := now }

/-- `updateObservation`: when every update field is null the function returns
early with `null` and runs no SQL at all; otherwise it runs a single UPDATE
with `RETURNING *`, whose result is the updated row or `null` when the id does
not exist.  Note both the no-op early return and the not-found case produce
the same `none`. -/
def updateObservation (db : DB) (id : Nat) (u : ObservationUpdate) :
    DB × Option ObservationRow :=
  if u.text = none ∧ u.source = none ∧ u.disposition = none ∧ u.project = none then
    (db, none)
  else
    let newObs := db.observations.map (fun r => if r.id = id then applyUpdate u db.now r else r)
    ({ db with observations := newObs }, newObs.find? (fun r => r.id = id))

/-- `deleteObservation`: `DELETE FROM observations WHERE id = ?`, returning
`changes > 0`.  The declared `ON DELETE CASCADE` on `action_observations`
fires only when the connection's `foreign_keys` pragma is ON. -/
def deleteObservation (db : DB) (id : Nat) : DB × Bool :=
  let deleted := db.observations.any (fun r => r.id = id)
  let newLinks :=
    if db.foreign_keys then db.action_observations.filter (fun p => ¬ p.2 = id)
    else db.action_observations
  ({ db with
      observations := db.observations.filter (fun r => ¬ r.id = id)
      action_observations := newLinks }, deleted)

/-- Sort a list of action rows by `created_at` descending (`ORDER BY
a.created_at DESC`). -/
def sortByCreatedDesc (l : List ActionRow) : List ActionRow :=
  l.insertionSort (fun a b => b.created_at ≤ a.created_at)

/-- `getActionsForObservation`: join of `actions` with `action_observations`
on `action_id`, filtered to the given `observation_id`. -/
def getActionsForObservation (db : DB) (obsId : Nat) : List ActionRow :=
  sortByCreatedDesc
    (db.actions.filter (fun a =>
      db.action_observations.any (fun p => p.1 = a.id ∧ p.2 = obsId)))

/-- `createProjectsBulk`: one prepared `INSERT OR IGNORE ... RETURNING *`
statement run per input name; an ignored (duplicate) insert returns no row,
so only newly inserted rows are accumulated. -/
def createProjectsBulk (db : DB) (names : List String) : DB × List ProjectRow :=
  match names with
  | [] => (db, [])
  | n :: rest =>
    if db.projects.any (fun p => p.name = n) then
      createProjectsBulk db rest
    else
      let row : ProjectRow := ⟨db.nextProjectId, n, db.now⟩
      let db1 := { db with
        projects := db.projects ++ [row]
        nextProjectId := db.nextProjectId + 1 }
      let (db2, rows) := createProjectsBulk db1 rest
      (db2, row :: rows)

-- ## Schema migration (migrateStatusToDisposition)

/-- Abstract SQLite error raised by the statement at the given index inside
the migration transaction. -/
inductive SqlError where
  | failed : Nat → SqlError
deriving Repr, DecidableEq

/-- The observations table as the migration sees it: its column-name list
(`PRAGMA table_info(observations)`) and, per row id, the value stored in the
legacy `status` / new `disposition` column. -/
structure MigTable where
  columns : List String
  dispositions : List (Nat × String)
deriving Repr, DecidableEq

/-- `ALTER TABLE observations RENAME COLUMN status TO disposition`. -/
def renameColumn (c : String) : String :=
  if c = "status" then "disposition" else c

/-- First UPDATE of the migration: the three legacy values become `open`. -/
def remapToOpen (v : String) : String :=
  if v = "observed" ∨ v = "pattern_confirmed" ∨ v = "solution_designed" then "open" else v

/-- Second UPDATE of the migration: `automated` becomes `addressed`. -/
def remapToAddressed (v : String) : String :=
  if v = "automated" then "addressed" else v

/-- The overall legacy-value remapping the spec describes. -/
def legacyRemap (v : String) : String :=
  if v = "observed" ∨ v = "pattern_confirmed" ∨ v = "solution_designed" then "open"
  else if v = "automated" then "addressed"
  else v

/-- `migrateStatusToDisposition` with failure injection: `fail k = true`
means the k-th statement inside the `BEGIN TRANSACTION` block (0 = rename,
1 = first UPDATE, 2 = second UPDATE, 3 = COMMIT) raises.  The `catch` block
issues `ROLLBACK`, restoring the pre-transaction state, and re-throws, which
the model renders as returning the original table together with the error. -/
def migrateStatusToDisposition (fail : Nat → Bool) (t : MigTable) : MigTable × Option SqlError :=
  if "status" ∈ t.columns then
    if fail 0 then (t, some (.failed 0))
    else
      let t1 : MigTable := { t with columns := t.columns.map renameColumn }
      if fail 1 then (t, some (.failed 1))
      else
        let t2 : MigTable :=
          { t1 with dispositions := t1.dispositions.map (fun p => (p.1, remapToOpen p.2)) }
        if fail 2 then (t, some (.failed 2))
        else
          let t3 : MigTable :=
            { t2 with dispositions := t2.dispositions.map (fun p => (p.1, remapToAddressed p.2)) }
          if fail 3 then (t, some (.failed 3))
          else (t3, none)
  else (t, none)

-- ## Action log (createAction)

inductive DbErr where
  | uniqueConstraint : String → DbErr
  | fkViolation : DbErr
deriving Repr, DecidableEq

structure ActionCreate where
  description : String
  source : Option String
  reference : Option String
  project : Option String
  observation_ids : List Nat
deriving Repr, DecidableEq

structure ActionWithObservations where
  id : Nat
  description : String
  source : String
  reference : Option String
  project : Option String
  created_at : Nat
  observation_ids : List Nat
deriving Repr, DecidableEq

/-- One `INSERT INTO action_observations (action_id, observation_id)`.
The duplicate-pair case violates `PRIMARY KEY (action_id, observation_id)`
and raises; the `REFERENCES` clauses are checked only when the connection's
`foreign_keys` pragma is ON.  The statement auto-commits, so on error the
state is simply unchanged. -/
def insertLink (db : DB) (aid oid : Nat) : DB × Option DbErr :=
  if (aid, oid) ∈ db.action_observations then
    (db, some (.uniqueConstraint "action_observations"))
  else if db.foreign_keys ∧
      (¬ db.actions.any (fun a => a.id = aid) ∨ ¬ db.observations.any (fun r => r.id = oid)) then
    (db, some .fkViolation)
  else
    ({ db with action_observations := db.action_observations ++ [(aid, oid)] }, none)

/-- The link-insert loop of `createAction`: one insert per observation id, in
input order; the first raised error aborts the loop (and propagates), leaving
the inserts already made committed. -/
def linkLoop (db : DB) (aid : Nat) : List Nat → DB × Option DbErr
  | [] => (db, none)
  | oid :: rest =>
    match insertLink db aid oid with
    | (db1, none) => linkLoop db1 aid rest
    | (db1, some e) => (db1, some e)

/-- The action row inserted by `createAction` (defaults applied as in the
source: `source ?? 'human'`, `reference ?? null`, `project ?? null`). -/
def mkActionRow (db : DB) (data : ActionCreate) : ActionRow :=
  { id := db.nextActionId, description := data.description
    source := data.source.getD "human", reference := data.reference
    project := data.project, created_at := db.now }

/-- The record `createAction` returns: the inserted action row spread with
`observation_ids` echoing the input list. -/
def mkActionWithObservations (db : DB) (data : ActionCreate) : ActionWithObservations :=
  { id := db.nextActionId, description := data.description
    source := data.source.getD "human", reference := data.reference
    project := data.project, created_at := db.now
    observation_ids := data.observation_ids }

/-- `createAction`: inserts the action row, then runs the link loop.  The two
steps are not wrapped in a transaction, so a link failure propagates as an
error while the action row and the earlier links stay committed. -/
def createAction (db : DB) (data : ActionCreate) :
    DB × Except DbErr ActionWithObservations :=
  let a := mkActionRow db data
  let db1 := { db with actions := db.actions ++ [a], nextActionId := db.nextActionId + 1 }
  match linkLoop db1 a.id data.observation_ids with
  | (db2, none) => (db2, .ok (mkActionWithObservations db data))
  | (db2, some e) => (db2, .error e)

-- ## Repository scanner (src/scan.ts)

/-- The ssh-shape literal the regex anchors on. -/
def sshPfx : List Char := "git@github.com:".data

def httpsPfx : List Char := "https://github.com/".data

def httpPfx : List Char := "http://github.com/".data

/-- Effect of the lazy `([^-]+?)(?:\.git)?$` tail of both regexes (with `-`
read as `/`): the shortest repo match strips one trailing `.git` unless that
would leave the repo empty (`[^/]+?` needs at least one character, so the
input `.git` matches as the repo itself). -/
def stripDotGit (cs : List Char) : List Char :=
  if ".git".data.isSuffixOf cs ∧ 4 < cs.length then cs.take (cs.length - 4) else cs

/-- Shared `([^-]+)\/([^-]+?)(?:\.git)?$` part of both regexes (with `-` read
as `/`): a maximal non-empty run of non-separator characters, one `/`, then a
non-empty separator-free tail whose optional `.git` suffix is stripped. -/
def parseOwnerRepoL (cs : List Char) : Option (List Char) :=
  let owner := cs.takeWhile (fun c => ¬ c = '/')
  match cs.dropWhile (fun c => ¬ c = '/') with
  | _ :: tail =>
    if owner ≠ [] ∧ tail ≠ [] ∧ ¬ '/' ∈ tail then
      some (owner ++ '/' :: stripDotGit tail)
    else none
  | [] => none

/-- `parseGitHubRepo` over the string's character list: the SSH shape
`git@github.com:owner/repo(.git)?` is tried first, then the HTTP(S) shape
`http(s)://github.com/owner/repo(.git)?`; anything else yields no candidate. -/
def parseGitHubRepoL (cs : List Char) : Option (List Char) :=
  if cs.take sshPfx.length = sshPfx then parseOwnerRepoL (cs.drop sshPfx.length)
  else if cs.take httpsPfx.length = httpsPfx then parseOwnerRepoL (cs.drop httpsPfx.length)
  else if cs.take httpPfx.length = httpPfx then parseOwnerRepoL (cs.drop httpPfx.length)
  else none

/-- `parseGitHubRepo` on strings. -/
def parseGitHubRepo (url : String) : Option String :=
  (parseGitHubRepoL url.data).map (fun cs => String.mk cs)

/-- A directory tree: each entry is (name, isDirectory, subtree); file entries
carry an empty dummy subtree. -/
inductive FSTree where
  | node : List (String × Bool × FSTree) → FSTree

def FSTree.entries : FSTree → List (String × Bool × FSTree)
  | .node es => es

mutual

def FSTree.size : FSTree → Nat
  | .node es => 1 + sizeEntries es

def sizeEntries : List (String × Bool × FSTree) → Nat
  | [] => 0
  | e :: es => FSTree.size e.2.2 + sizeEntries es

end

/-- `entries.some(e => e.name === ".git")` — the marker check looks only at
the entry name, not at whether it is a directory. -/
def FSTree.hasGitMarker (t : FSTree) : Bool :=
  t.entries.any (fun e => e.1 = ".git")

/-- `name.startsWith "."` for the one-character prefix `.`: the name's first
character is the hidden-entry marker. -/
def isHidden (s : String) : Bool :=
  match s.data with
  | [] => false
  | c :: _ => c = '.'

/-- The subdirectory-collecting loop of the traversal: each entry that is a
directory, is not `node_modules` and is not hidden is enqueued. -/
def childDirsEntries : List (String × Bool × FSTree) → List (String × FSTree)
  | [] => []
  | e :: es =>
    if e.2.1 = true ∧ ¬ e.1 = "node_modules" ∧ ¬ isHidden e.1 = true then
      (e.1, e.2.2) :: childDirsEntries es
    else childDirsEntries es

/-- The subdirectories the traversal enqueues: directories only, pruning
`node_modules` and hidden names before any marker check on them. -/
def childDirs (t : FSTree) : List (String × FSTree) :=
  childDirsEntries t.entries

def queueSize (q : List (List String × FSTree)) : Nat :=
  (q.map (fun pt => pt.2.size)).sum

/-- Breadth-first traversal of `findGitRoots`: pop the frontier's head; a
directory containing a `.git` entry is recorded as a repository root and not
descended into; otherwise its non-pruned subdirectories are appended to the
frontier.  Paths are lists of name components relative to the scan root. -/
def findGitRoots : List (List String × FSTree) → List (List String)
  | [] => []
  | (p, t) :: rest =>
    if t.hasGitMarker then p :: findGitRoots rest
    else findGitRoots (rest ++ (childDirs t).map (fun c => (p ++ [c.1], c.2)))
termination_by q => queueSize q
decreasing_by
  · have e2 : queueSize ((p, t) :: rest) = t.size + queueSize rest := by
      simp [queueSize]
    have h : 1 ≤ t.size := by
      cases t with
      | node es => simp [FSTree.size]
    omega
  · have e1 : queueSize (rest ++ (childDirs t).map (fun c => (p ++ [c.1], c.2))) =
        queueSize rest + ((childDirs t).map (fun c => c.2.size)).sum := by
      simp only [queueSize, List.map_append, List.sum_append, List.map_map]
      rfl
    have e2 : queueSize ((p, t) :: rest) = t.size + queueSize rest := by
      simp [queueSize]
    have hle : ∀ es : List (String × Bool × FSTree),
        ((childDirsEntries es).map (fun c => c.2.size)).sum ≤ sizeEntries es := by
      intro es
      induction es with
      | nil => simp [childDirsEntries, sizeEntries]
      | cons e es ih =>
        have h2 : sizeEntries (e :: es) = e.2.2.size + sizeEntries es := rfl
        rw [childDirsEntries]
        split
        · simp only [List.map_cons, List.sum_cons]
          omega
        · omega
    have h1 : ((childDirs t).map (fun c => c.2.size)).sum < t.size := by
      cases t with
      | node es =>
        have h2 := hle es
        have h3 : (FSTree.node es).size = 1 + sizeEntries es := rfl
        have h4 : childDirs (FSTree.node es) = childDirsEntries es := rfl
        rw [h4]
        omega
    omega

/-- `[...new Set(candidates)]` — deduplication keeping first occurrences. -/
def dedupKeepFirst : List String → List String
  | [] => []
  | x :: xs => x :: dedupKeepFirst (xs.filter (fun y => ¬ y = x))
termination_by l => l.length
decreasing_by
  exact Nat.lt_succ_of_le (List.length_filter_le _ _)

/-- `.sort()` on deduplicated strings: ascending lexical order. -/
def sortStrings (l : List String) : List String :=
  l.insertionSort (fun a b => a ≤ b)

/-- The candidate list before dedup/sort: every discovered root's origin URL
(the subprocess result, modelled as an oracle `origin`; `null` for a missing
remote or failed call) run through `parseGitHubRepo`. -/
def scanCandidates (fs : FSTree) (origin : List String → Option String) : List String :=
  (findGitRoots [([], fs)]).filterMap (fun r => (origin r).bind parseGitHubRepo)

/-- `scanForGitRepos`: deduplicated candidates in ascending lexical order. -/
def scanForGitRepos (fs : FSTree) (origin : List String → Option String) : List String :=
  sortStrings (dedupKeepFirst (scanCandidates fs origin))

-- ## Fixtures and specification helper functions

/-- A one-observation database: `initDatabase` after creating observation 1. -/
def db1Obs : DB := (createObservation initDatabase ⟨"t", none, none⟩).1

/-- A database holding observation 1, action 1 and the link (1, 1). -/
def dbC1 : DB :=
  (createAction (createObservation initDatabase ⟨"obs", none, none⟩).1
    ⟨"act", none, none, none, [1]⟩).1

/-- Names of the input not yet present: the first-occurrence-deduplicated
subsequence of `names` whose elements are absent from `existing`. -/
def newNames (existing : List String) : List String → List String
  | [] => []
  | n :: rest =>
    if n ∈ existing then newNames existing rest
    else n :: newNames (n :: existing) rest

/-- The rows inserted for a list of fresh names, with consecutive
AUTOINCREMENT ids starting at `startId`. -/
def mkProjectRows (startId : Nat) (now : Nat) : List String → List ProjectRow
  | [] => []
  | n :: rest => ⟨startId, n, now⟩ :: mkProjectRows (startId + 1) now rest

/-- Legacy table fixture: observations with a `status` column. -/
def tLegacy : MigTable :=
  ⟨["id", "text", "status"], [(1, "observed"), (2, "automated"), (3, "open")]⟩

/-- Migrated table fixture: `status` already gone. -/
def tMigrated : MigTable := ⟨["id", "text", "disposition"], [(1, "open")]⟩

/-- Does the loop hit a pair already present?  `seen` is the set of
observation ids already linked to the action being created. -/
def hasDup (seen : List Nat) : List Nat → Bool
  | [] => false
  | x :: xs => if x ∈ seen then true else hasDup (x :: seen) xs

/-- The observation ids whose link insert succeeds before the loop aborts:
the longest prefix of fresh ids. -/
def insertedLinks (seen : List Nat) : List Nat → List Nat
  | [] => []
  | x :: xs => if x ∈ seen then [] else x :: insertedLinks (x :: seen) xs

/-- The state right after `createAction` commits the action row, before any
link insert. -/
def afterActionInsert (db : DB) (data : ActionCreate) : DB :=
  { db with
    actions := db.actions ++ [mkActionRow db data]
    nextActionId := db.nextActionId + 1 }

/-- Concrete input with a duplicated observation id. -/
def actionDataDup : ActionCreate := ⟨"act", none, none, none, [1, 1]⟩

/-- Concrete input referencing observation id 42, which does not exist in the
fresh database. -/
def actionDataDangling : ActionCreate := ⟨"act", none, none, none, [42]⟩

/-- The testable-property tree: `root/repoA/.git`, `root/repoA/nested/.git`,
`root/node_modules/.git`. -/
def exTree : FSTree :=
  .node [("repoA", true, .node [(".git", true, .node []),
                                ("nested", true, .node [(".git", true, .node [])])]),
         ("node_modules", true, .node [(".git", true, .node [])])]

-- ## Helper lemmas and fixtures

/-- After `ensureProject db name`, some project row carries `name`. -/
theorem ensureProject_mem (db : DB) (name : String) :
    ∃ q ∈ (ensureProject db name).projects, q.name = name := by
  unfold ensureProject
  split
  · rename_i h
    rcases List.any_eq_true.mp h with ⟨q, hq, hqe⟩
    exact ⟨q, hq, by simpa using hqe⟩
  · exact ⟨⟨db.nextProjectId, name, db.now⟩, by simp, rfl⟩

-- ## C1, C2, C6, C7

/-- C1 (code bug): on the database `dbC1` (observation 1 linked to action 1,
`foreign_keys` at SQLite's default OFF as `initDatabase` leaves it),
`deleteObservation` removes the observation row but the `action_observations`
link row survives — the declared `ON DELETE CASCADE` never fires because
`initDatabase` never enables foreign-key enforcement — so a subsequent
`getActionsForObservation` still returns the linked action instead of the
empty sequence the claim requires. -/
theorem deleteObservation_leaves_links :
    (deleteObservation dbC1 1).2 = true ∧
    (deleteObservation dbC1 1).1.observations = [] ∧
    (deleteObservation dbC1 1).1.action_observations = [(1, 1)] ∧
    ¬ getActionsForObservation (deleteObservation dbC1 1).1 1 = [] := by
  refine ⟨rfl, rfl, rfl, by decide⟩

/-- C2 counterexample: on `db1Obs` (where observation id 1 exists and id 2
does not), `updateObservation` with all four fields null returns `none` for
the existing id — the very same value it returns for the missing id — so the
no-op result is not distinguishable from the not-found result, refuting the
claim as stated. -/
theorem updateObservation_noop_notfound_cex :
    db1Obs.observations.map (fun r => r.id) = [1] ∧
    updateObservation db1Obs 1 ⟨none, none, none, none⟩ = (db1Obs, none) ∧
    (updateObservation db1Obs 2 ⟨none, none, none, none⟩).2 = none :=
  ⟨rfl, rfl, rfl⟩

/-- C2 (amended): `updateObservation` with all four update fields null
performs no write (the database value, and hence every row's `updated_at`, is
returned unchanged) and returns `none` — which is the same sentinel the
function returns when the id does not exist, so the no-op is not
distinguishable from not-found at this layer. -/
theorem updateObservation_allNull_noop :
    (∀ (db : DB) (id : Nat),
      updateObservation db id ⟨none, none, none, none⟩ = (db, none)) ∧
    (∀ (db : DB) (id : Nat) (u : ObservationUpdate),
      (∀ r ∈ db.observations, ¬ r.id = id) → (updateObservation db id u).2 = none) := by
  constructor
  · intro db id
    simp [updateObservation]
  · intro db id u h
    unfold updateObservation
    split
    · rfl
    · simp only
      rw [List.find?_eq_none]
      intro x hx
      rcases List.mem_map.mp hx with ⟨r, hr, hxr⟩
      have hne := h r hr
      rw [if_neg hne] at hxr
      subst hxr
      simpa using hne

/-- Witness for C2's amended theorem at concrete inputs. -/
theorem updateObservation_allNull_noop_witness :
    updateObservation db1Obs 1 ⟨none, none, none, none⟩ = (db1Obs, none) ∧
    (updateObservation db1Obs 2 ⟨some "u", none, none, none⟩).2 = none :=
  ⟨updateObservation_allNull_noop.1 db1Obs 1,
   updateObservation_allNull_noop.2 db1Obs 2 ⟨some "u", none, none, none⟩ (by decide)⟩

theorem createProjectsBulk_general (names : List String) :
    ∀ (db : DB) (seen : List String),
    (∀ s, s ∈ seen ↔ ∃ q ∈ db.projects, q.name = s) →
    createProjectsBulk db names =
      ({ db with
          projects := db.projects ++ mkProjectRows db.nextProjectId db.now (newNames seen names)
          nextProjectId := db.nextProjectId + (newNames seen names).length },
       mkProjectRows db.nextProjectId db.now (newNames seen names)) := by
  induction names with
  | nil =>
    intro db seen hseen
    simp [createProjectsBulk, newNames, mkProjectRows]
  | cons n rest ih =>
    intro db seen hseen
    rw [createProjectsBulk]
    by_cases h : db.projects.any (fun p => p.name = n) = true
    · rw [if_pos h]
      have hn : n ∈ seen := by
        rcases List.any_eq_true.mp h with ⟨q, hq, he⟩
        exact (hseen n).mpr ⟨q, hq, by simpa using he⟩
      rw [newNames, if_pos hn]
      exact ih db seen hseen
    · rw [if_neg h]
      have hn : ¬ n ∈ seen := by
        intro hmem
        rcases (hseen n).mp hmem with ⟨q, hq, he⟩
        exact h (List.any_eq_true.mpr ⟨q, hq, by simpa using he⟩)
      rw [newNames, if_neg hn]
      have hseen1 : ∀ s, s ∈ (n :: seen) ↔
          ∃ q ∈ ({ db with
              projects := db.projects ++ [(⟨db.nextProjectId, n, db.now⟩ : ProjectRow)]
              nextProjectId := db.nextProjectId + 1 } : DB).projects, q.name = s := by
        intro s
        constructor
        · intro hs
          rcases List.mem_cons.mp hs with rfl | hs
          · exact ⟨⟨db.nextProjectId, s, db.now⟩, by simp, rfl⟩
          · rcases (hseen s).mp hs with ⟨q, hq, hqe⟩
            exact ⟨q, by simp [hq], hqe⟩
        · rintro ⟨q, hq, hqe⟩
          rcases List.mem_append.mp hq with hq | hq
          · exact List.mem_cons.mpr (Or.inr ((hseen s).mpr ⟨q, hq, hqe⟩))
          · have hq2 : q = ⟨db.nextProjectId, n, db.now⟩ := by simpa using hq
            subst hq2
            exact List.mem_cons.mpr (Or.inl hqe.symm)
      have hrw := ih { db with
        projects := db.projects ++ [(⟨db.nextProjectId, n, db.now⟩ : ProjectRow)]
        nextProjectId := db.nextProjectId + 1 } (n :: seen) hseen1
      show (match createProjectsBulk { db with
          projects := db.projects ++ [(⟨db.nextProjectId, n, db.now⟩ : ProjectRow)]
          nextProjectId := db.nextProjectId + 1 } rest with
        | (db2, rows) => (db2, (⟨db.nextProjectId, n, db.now⟩ : ProjectRow) :: rows)) = _
      rw [hrw]
      simp only [mkProjectRows, Prod.mk.injEq, DB.mk.injEq, List.append_assoc,
        List.singleton_append, List.length_cons, eq_self_iff_true, true_and, and_true]
      omega

/-- C6: `createProjectsBulk` returns exactly the rows newly inserted by this
call — per input name in order, a name already present in the registry or
repeated earlier in the input inserts nothing and contributes nothing to the
result — and the post-state appends exactly those returned rows.  In
particular, on a fresh registry, `["a", "a", "b"]` registers exactly the two
projects `a` and `b` and returns exactly those two rows. -/
theorem createProjectsBulk_spec :
    (∀ (db : DB) (names : List String),
      createProjectsBulk db names =
        ({ db with
            projects := db.projects ++
              mkProjectRows db.nextProjectId db.now
                (newNames (db.projects.map (fun q => q.name)) names)
            nextProjectId := db.nextProjectId +
              (newNames (db.projects.map (fun q => q.name)) names).length },
         mkProjectRows db.nextProjectId db.now
           (newNames (db.projects.map (fun q => q.name)) names))) ∧
    createProjectsBulk initDatabase ["a", "a", "b"] =
      ({ initDatabase with projects := [⟨1, "a", 0⟩, ⟨2, "b", 0⟩], nextProjectId := 3 },
       [⟨1, "a", 0⟩, ⟨2, "b", 0⟩]) := by
  constructor
  · intro db names
    refine createProjectsBulk_general names db _ (fun s => ?_)
    simp [List.mem_map]
  · rfl

/-- C7 counterexample: a creation input with a blank (non-absent) `source`
and a blank (non-null) `project` yields an observation whose source is the
blank string, not `human`, and registers nothing in the projects table —
refuting the claim's "absent or blank" defaulting and its unqualified
"non-null project is registered" at the `createObservation` layer. -/
theorem createObservation_blank_cex :
    ¬ (createObservation initDatabase ⟨"t", some "", some ""⟩).2.source = "human" ∧
    (createObservation initDatabase ⟨"t", some "", some ""⟩).2.source = "" ∧
    (createObservation initDatabase ⟨"t", some "", some ""⟩).1.projects = [] := by
  exact ⟨by decide, rfl, rfl⟩

/-- C7 (amended): every observation returned by `createObservation` has
disposition exactly `open` (the caller cannot supply one) and
`created_at = updated_at`; the source defaults to `human` when the caller's
source is absent (a blank source string is stored as-is — blank
normalization happens in the HTTP adapter); and whenever `project` is
non-null and non-empty it is first registered in the projects table. -/
theorem createObservation_spec (db : DB) (data : ObservationCreate) :
    (createObservation db data).2.disposition = "open" ∧
    (createObservation db data).2.created_at = (createObservation db data).2.updated_at ∧
    (data.source = none → (createObservation db data).2.source = "human") ∧
    (∀ p, data.project = some p → ¬ p = "" →
      ∃ q ∈ (createObservation db data).1.projects, q.name = p) := by
  refine ⟨rfl, rfl, fun hs => ?_, fun p hp hne => ?_⟩
  · show data.source.getD "human" = "human"
    rw [hs]
    rfl
  · have hpr : (createObservation db data).1.projects = (ensureProject db p).projects := by
      simp only [createObservation, hp]
      rw [if_neg hne]
    rw [hpr]
    exact ensureProject_mem db p

/-- Witness for C7's amended theorem at a concrete input. -/
theorem createObservation_spec_witness :
    (createObservation initDatabase ⟨"flaky", none, some "acme/widgets"⟩).2.disposition = "open" ∧
    (createObservation initDatabase ⟨"flaky", none, some "acme/widgets"⟩).2.created_at =
      (createObservation initDatabase ⟨"flaky", none, some "acme/widgets"⟩).2.updated_at ∧
    (createObservation initDatabase ⟨"flaky", none, some "acme/widgets"⟩).2.source = "human" ∧
    ∃ q ∈ (createObservation initDatabase ⟨"flaky", none, some "acme/widgets"⟩).1.projects,
      q.name = "acme/widgets" :=
  ⟨(createObservation_spec initDatabase ⟨"flaky", none, some "acme/widgets"⟩).1,
   (createObservation_spec initDatabase ⟨"flaky", none, some "acme/widgets"⟩).2.1,
   (createObservation_spec initDatabase ⟨"flaky", none, some "acme/widgets"⟩).2.2.1 rfl,
   (createObservation_spec initDatabase ⟨"flaky", none, some "acme/widgets"⟩).2.2.2
     "acme/widgets" rfl (by decide)⟩

-- ## C3, C4: schema migration

theorem remap_comp (v : String) :
    remapToAddressed (remapToOpen v) = legacyRemap v := by
  by_cases h1 : v = "observed" ∨ v = "pattern_confirmed" ∨ v = "solution_designed"
  · rw [remapToOpen, if_pos h1, legacyRemap, if_pos h1]
    rfl
  · rw [remapToOpen, if_neg h1, legacyRemap, if_neg h1, remapToAddressed]

/-- A renamed column list never contains `status` again. -/
theorem renameColumn_ne_status (c : String) : ¬ renameColumn c = "status" := by
  unfold renameColumn
  by_cases h : c = "status"
  · rw [if_pos h]
    decide
  · rw [if_neg h]
    exact h

theorem migrate_no_status (t : MigTable) (fail : Nat → Bool)
    (h : ¬ "status" ∈ t.columns) :
    migrateStatusToDisposition fail t = (t, none) := by
  unfold migrateStatusToDisposition
  rw [if_neg h]

theorem migrate_success (t : MigTable) (fail : Nat → Bool)
    (h : "status" ∈ t.columns)
    (hnone : (migrateStatusToDisposition fail t).2 = none) :
    (migrateStatusToDisposition fail t).1.columns = t.columns.map renameColumn ∧
    (migrateStatusToDisposition fail t).1.dispositions =
      t.dispositions.map (fun p => (p.1, legacyRemap p.2)) := by
  unfold migrateStatusToDisposition at hnone ⊢
  rw [if_pos h] at hnone ⊢
  split_ifs at hnone ⊢ with h0 h1 h2 h3
  refine ⟨rfl, ?_⟩
  show (t.dispositions.map fun p => (p.1, remapToOpen p.2)).map
      (fun p => (p.1, remapToAddressed p.2)) =
    t.dispositions.map fun p => (p.1, legacyRemap p.2)
  rw [List.map_map]
  simp [Function.comp, remap_comp]

theorem migrate_rollback (t : MigTable) (fail : Nat → Bool) (e : SqlError)
    (he : (migrateStatusToDisposition fail t).2 = some e) :
    (migrateStatusToDisposition fail t).1 = t := by
  unfold migrateStatusToDisposition at he ⊢
  by_cases h : "status" ∈ t.columns
  · rw [if_pos h] at he ⊢
    split_ifs at he ⊢ with h0 h1 h2 h3
    · rfl
    · rfl
    · rfl
    · rfl
  · rw [if_neg h] at he
    simp at he

/-- C3: when the legacy `status` column is present, a fully successful
migration renames it to `disposition` (and only it) and remaps every row's
value by the legacy mapping (`observed`, `pattern_confirmed`,
`solution_designed` become `open`; `automated` becomes `addressed`; anything
else is untouched); if any statement of the transaction fails, the rollback
leaves the table — schema and data — exactly as it was, and the error is
re-raised to the caller. -/
theorem migrateStatusToDisposition_spec (t : MigTable) (fail : Nat → Bool)
    (h : "status" ∈ t.columns) :
    ((migrateStatusToDisposition fail t).2 = none →
      (migrateStatusToDisposition fail t).1.columns = t.columns.map renameColumn ∧
      (migrateStatusToDisposition fail t).1.dispositions =
        t.dispositions.map (fun p => (p.1, legacyRemap p.2))) ∧
    (∀ e, (migrateStatusToDisposition fail t).2 = some e →
      (migrateStatusToDisposition fail t).1 = t) :=
  ⟨migrate_success t fail h, migrate_rollback t fail⟩

/-- Witness for C3 at a concrete legacy table and failure-free injection. -/
theorem migrateStatusToDisposition_spec_witness :
    "status" ∈ tLegacy.columns ∧
    (((migrateStatusToDisposition (fun _ => false) tLegacy).2 = none →
      (migrateStatusToDisposition (fun _ => false) tLegacy).1.columns =
        tLegacy.columns.map renameColumn ∧
      (migrateStatusToDisposition (fun _ => false) tLegacy).1.dispositions =
        tLegacy.dispositions.map (fun p => (p.1, legacyRemap p.2))) ∧
    (∀ e, (migrateStatusToDisposition (fun _ => false) tLegacy).2 = some e →
      (migrateStatusToDisposition (fun _ => false) tLegacy).1 = tLegacy)) :=
  ⟨by decide, migrateStatusToDisposition_spec tLegacy (fun _ => false) (by decide)⟩

/-- C4: migration is idempotent — on any table without the legacy `status`
column it is a complete no-op and raises no error, whatever statements would
have failed; and any table produced by a successful migration run has no
`status` column anymore, so running the migration again returns it unchanged
with no error. -/
theorem migrateStatusToDisposition_idempotent :
    (∀ (t : MigTable) (fail : Nat → Bool), ¬ "status" ∈ t.columns →
      migrateStatusToDisposition fail t = (t, none)) ∧
    (∀ (t : MigTable) (fail fail2 : Nat → Bool),
      (migrateStatusToDisposition fail t).2 = none →
      migrateStatusToDisposition fail2 (migrateStatusToDisposition fail t).1 =
        ((migrateStatusToDisposition fail t).1, none)) := by
  refine ⟨migrate_no_status, fun t fail fail2 hnone => ?_⟩
  apply migrate_no_status
  by_cases h : "status" ∈ t.columns
  · have hcols := (migrate_success t fail h hnone).1
    rw [hcols]
    intro hmem
    rcases List.mem_map.mp hmem with ⟨c, _, hc⟩
    exact renameColumn_ne_status c hc
  · rw [migrate_no_status t fail h]
    exact h

/-- Witness for C4: the migrated fixture is a no-op, and re-running after a
successful migration of the legacy fixture is a no-op. -/
theorem migrateStatusToDisposition_idempotent_witness :
    (¬ "status" ∈ tMigrated.columns ∧
      migrateStatusToDisposition (fun _ => false) tMigrated = (tMigrated, none)) ∧
    migrateStatusToDisposition (fun _ => false)
        (migrateStatusToDisposition (fun _ => false) tLegacy).1 =
      ((migrateStatusToDisposition (fun _ => false) tLegacy).1, none) :=
  ⟨⟨by decide, migrateStatusToDisposition_idempotent.1 tMigrated (fun _ => false) (by decide)⟩,
   migrateStatusToDisposition_idempotent.2 tLegacy (fun _ => false) (fun _ => false) (by decide)⟩

-- ## C5, C10: createAction link loop

theorem insertLink_dup (db : DB) (aid oid : Nat)
    (h : (aid, oid) ∈ db.action_observations) :
    insertLink db aid oid = (db, some (DbErr.uniqueConstraint "action_observations")) := by
  unfold insertLink
  rw [if_pos h]

theorem insertLink_fresh (db : DB) (aid oid : Nat)
    (hfk : db.foreign_keys = false)
    (h : ¬ (aid, oid) ∈ db.action_observations) :
    insertLink db aid oid =
      ({ db with action_observations := db.action_observations ++ [(aid, oid)] }, none) := by
  unfold insertLink
  rw [if_neg h, if_neg]
  rintro ⟨hfk2, -⟩
  rw [hfk] at hfk2
  cases hfk2

theorem linkLoop_spec (aid : Nat) (ids : List Nat) :
    ∀ (db : DB) (seen : List Nat),
    db.foreign_keys = false →
    (∀ o, o ∈ seen ↔ (aid, o) ∈ db.action_observations) →
    linkLoop db aid ids =
      ({ db with action_observations :=
          db.action_observations ++ (insertedLinks seen ids).map (fun o => (aid, o)) },
       if hasDup seen ids = true then some (DbErr.uniqueConstraint "action_observations")
       else none) := by
  induction ids with
  | nil =>
    intro db seen hfk hseen
    simp [linkLoop, insertedLinks, hasDup]
  | cons x xs ih =>
    intro db seen hfk hseen
    rw [linkLoop]
    by_cases hx : x ∈ seen
    · have hmem : (aid, x) ∈ db.action_observations := (hseen x).mp hx
      rw [insertLink_dup db aid x hmem]
      show (db, some (DbErr.uniqueConstraint "action_observations")) = _
      rw [insertedLinks, if_pos hx, hasDup, if_pos hx]
      simp
    · have hnmem : ¬ (aid, x) ∈ db.action_observations := fun hc => hx ((hseen x).mpr hc)
      rw [insertLink_fresh db aid x hfk hnmem]
      show linkLoop { db with action_observations := db.action_observations ++ [(aid, x)] }
        aid xs = _
      have hseen1 : ∀ o, o ∈ (x :: seen) ↔
          (aid, o) ∈ ({ db with action_observations := db.action_observations ++ [(aid, x)] } : DB).action_observations := by
        intro o
        constructor
        · intro ho
          rcases List.mem_cons.mp ho with rfl | ho
          · simp
          · exact List.mem_append.mpr (Or.inl ((hseen o).mp ho))
        · intro ho
          rcases List.mem_append.mp ho with ho | ho
          · exact List.mem_cons.mpr (Or.inr ((hseen o).mpr ho))
          · have : (aid, o) = (aid, x) := by simpa using ho
            exact List.mem_cons.mpr (Or.inl (by injection this))
      rw [ih { db with action_observations := db.action_observations ++ [(aid, x)] }
        (x :: seen) hfk hseen1]
      rw [insertedLinks, if_neg hx, hasDup, if_neg hx]
      simp [List.append_assoc]

theorem hasDup_false_iff (ids : List Nat) :
    ∀ seen, hasDup seen ids = false ↔ ids.Nodup ∧ ∀ x ∈ ids, ¬ x ∈ seen := by
  induction ids with
  | nil => intro seen; simp [hasDup]
  | cons x xs ih =>
    intro seen
    rw [hasDup]
    by_cases hx : x ∈ seen
    · rw [if_pos hx]
      constructor
      · intro hc; cases hc
      · rintro ⟨-, hall⟩
        exact absurd hx (hall x (List.mem_cons_self x xs))
    · rw [if_neg hx, ih (x :: seen)]
      constructor
      · rintro ⟨hnd, hall⟩
        refine ⟨List.nodup_cons.mpr ⟨fun hc => hall x hc (List.mem_cons_self x seen), hnd⟩,
          fun y hy => ?_⟩
        rcases List.mem_cons.mp hy with rfl | hy
        · exact hx
        · exact fun hc => hall y hy (List.mem_cons.mpr (Or.inr hc))
      · rintro ⟨hnd, hall⟩
        rcases List.nodup_cons.mp hnd with ⟨hxs, hnd2⟩
        refine ⟨hnd2, fun y hy hc => ?_⟩
        rcases List.mem_cons.mp hc with rfl | hc
        · exact hxs hy
        · exact hall y (List.mem_cons.mpr (Or.inr hy)) hc

theorem insertedLinks_all (ids : List Nat) :
    ∀ seen, hasDup seen ids = false → insertedLinks seen ids = ids := by
  induction ids with
  | nil => intro seen _; rfl
  | cons x xs ih =>
    intro seen h
    rw [hasDup] at h
    by_cases hx : x ∈ seen
    · rw [if_pos hx] at h
      cases h
    · rw [if_neg hx] at h
      rw [insertedLinks, if_neg hx, ih (x :: seen) h]

/-- `createAction` unfolded to its link-loop call on the intermediate state
(action row already committed). -/
theorem createAction_eq (db : DB) (data : ActionCreate) :
    createAction db data =
      (match linkLoop (afterActionInsert db data) db.nextActionId data.observation_ids with
        | (db2, none) => (db2, Except.ok (mkActionWithObservations db data))
        | (db2, some e) => (db2, Except.error e)) := rfl

/-- C5: whenever `observation_ids` contains a duplicate (and the new action's
links are fresh, as AUTOINCREMENT guarantees on the real store), the
duplicate link insert violates the link table's primary key and the error is
surfaced by `createAction`, not swallowed; because no transaction wraps the
inserts, the action row stays committed and so do exactly the link rows
inserted before the failure (the longest fresh prefix of the input). -/
theorem createAction_duplicate_partial (db : DB) (data : ActionCreate)
    (hfk : db.foreign_keys = false)
    (hfresh : ∀ o, ¬ (db.nextActionId, o) ∈ db.action_observations)
    (hdup : ¬ data.observation_ids.Nodup) :
    (createAction db data).2 = Except.error (DbErr.uniqueConstraint "action_observations") ∧
    mkActionRow db data ∈ (createAction db data).1.actions ∧
    (createAction db data).1.action_observations =
      db.action_observations ++
        (insertedLinks [] data.observation_ids).map (fun o => (db.nextActionId, o)) := by
  have hseen : ∀ o, o ∈ ([] : List Nat) ↔
      (db.nextActionId, o) ∈ (afterActionInsert db data).action_observations := by
    intro o
    simp [afterActionInsert, hfresh o]
  have hloop := linkLoop_spec db.nextActionId data.observation_ids
    (afterActionInsert db data) [] hfk hseen
  have hdupb : hasDup [] data.observation_ids = true := by
    by_contra hc
    have hfalse : hasDup [] data.observation_ids = false := by
      cases h : hasDup [] data.observation_ids
      · rfl
      · exact absurd h hc
    exact hdup ((hasDup_false_iff data.observation_ids []).mp hfalse).1
  rw [if_pos hdupb] at hloop
  rw [createAction_eq db data, hloop]
  refine ⟨rfl, by simp [afterActionInsert], rfl⟩

/-- Witness for C5 on a fresh database and input ids `[1, 1]`. -/
theorem createAction_duplicate_partial_witness :
    (createAction initDatabase actionDataDup).2 =
      Except.error (DbErr.uniqueConstraint "action_observations") ∧
    mkActionRow initDatabase actionDataDup ∈ (createAction initDatabase actionDataDup).1.actions ∧
    (createAction initDatabase actionDataDup).1.action_observations =
      initDatabase.action_observations ++
        (insertedLinks [] actionDataDup.observation_ids).map
          (fun o => (initDatabase.nextActionId, o)) :=
  createAction_duplicate_partial initDatabase actionDataDup rfl
    (fun o => List.not_mem_nil (initDatabase.nextActionId, o)) (by decide)

/-- C10: `initDatabase` leaves foreign-key enforcement at SQLite's default
OFF (it issues only the WAL pragma), so the declared
`REFERENCES ... ON DELETE CASCADE` clauses are inert and `createAction`
succeeds for every duplicate-free `observation_ids` input whose pairs are
fresh — no hypothesis about the existence of the referenced observation rows
is needed: a link to a nonexistent observation is inserted without error. -/
theorem createAction_no_fk_enforcement :
    initDatabase.foreign_keys = false ∧
    ∀ (db : DB) (data : ActionCreate),
      db.foreign_keys = false →
      (∀ o, ¬ (db.nextActionId, o) ∈ db.action_observations) →
      data.observation_ids.Nodup →
      (createAction db data).2 = Except.ok (mkActionWithObservations db data) ∧
      (createAction db data).1.action_observations =
        db.action_observations ++ data.observation_ids.map (fun o => (db.nextActionId, o)) := by
  refine ⟨rfl, fun db data hfk hfresh hnd => ?_⟩
  have hseen : ∀ o, o ∈ ([] : List Nat) ↔
      (db.nextActionId, o) ∈ (afterActionInsert db data).action_observations := by
    intro o
    simp [afterActionInsert, hfresh o]
  have hloop := linkLoop_spec db.nextActionId data.observation_ids
    (afterActionInsert db data) [] hfk hseen
  have hdupb : hasDup [] data.observation_ids = false :=
    (hasDup_false_iff data.observation_ids []).mpr ⟨hnd, by simp⟩
  rw [if_neg (by rw [hdupb]; exact Bool.false_ne_true)] at hloop
  rw [insertedLinks_all data.observation_ids [] hdupb] at hloop
  rw [createAction_eq db data, hloop]
  exact ⟨rfl, rfl⟩

/-- Witness for C10: on the fresh database (no observation rows at all),
linking the new action to the nonexistent observation 42 succeeds and the
dangling link row is inserted. -/
theorem createAction_no_fk_enforcement_witness :
    initDatabase.foreign_keys = false ∧
    ((createAction initDatabase actionDataDangling).2 =
      Except.ok (mkActionWithObservations initDatabase actionDataDangling) ∧
    (createAction initDatabase actionDataDangling).1.action_observations =
      initDatabase.action_observations ++
        actionDataDangling.observation_ids.map (fun o => (initDatabase.nextActionId, o))) :=
  ⟨createAction_no_fk_enforcement.1,
   createAction_no_fk_enforcement.2 initDatabase actionDataDangling rfl
     (fun o => List.not_mem_nil (initDatabase.nextActionId, o)) (by decide)⟩

-- ## C8: parseGitHubRepo

/-- The head of `dropWhile (fun c => ¬ c = sep)` is the separator itself. -/
theorem dropWhile_head_sep (sep : Char) :
    ∀ (l : List Char) (c : Char) (t : List Char),
      l.dropWhile (fun c => ¬ c = sep) = c :: t → c = sep := by
  intro l
  induction l with
  | nil => intro c t h; cases h
  | cons x xs ih =>
    intro c t h
    rw [List.dropWhile_cons] at h
    split at h
    · exact ih c t h
    · rename_i hx
      injection h with h1 _
      subst h1
      simpa using hx

theorem parseOwnerRepoL_sound (cs r : List Char) (h : parseOwnerRepoL cs = some r) :
    ∃ owner tail, owner ≠ [] ∧ ¬ '/' ∈ owner ∧ tail ≠ [] ∧ ¬ '/' ∈ tail ∧
      r = owner ++ '/' :: stripDotGit tail ∧ cs = owner ++ '/' :: tail := by
  unfold parseOwnerRepoL at h
  rcases hd : cs.dropWhile (fun c : Char => ¬ c = '/') with - | ⟨c, tail⟩
  · rw [hd] at h
    cases h
  · rw [hd] at h
    have h0 : (if cs.takeWhile (fun c : Char => ¬ c = '/') ≠ [] ∧ tail ≠ [] ∧ ¬ '/' ∈ tail then
        some (cs.takeWhile (fun c : Char => ¬ c = '/') ++ '/' :: stripDotGit tail)
      else none) = some r := h
    split_ifs at h0 with hcond
    · obtain ⟨h1, h2, h3⟩ := hcond
      injection h0 with hr
      have hc : c = '/' := dropWhile_head_sep '/' cs c tail hd
      subst hc
      refine ⟨cs.takeWhile (fun c => ¬ c = '/'), tail, h1, ?_, h2, h3, hr.symm, ?_⟩
      · intro hmem
        have := List.mem_takeWhile_imp hmem
        simp at this
      · have hsplit := List.takeWhile_append_dropWhile
          (p := fun c : Char => ¬ c = '/') (l := cs)
        rw [hd] at hsplit
        exact hsplit.symm

theorem parseGitHubRepoL_sound (cs r : List Char) (h : parseGitHubRepoL cs = some r) :
    ∃ owner tail, owner ≠ [] ∧ ¬ '/' ∈ owner ∧ tail ≠ [] ∧ ¬ '/' ∈ tail ∧
      r = owner ++ '/' :: stripDotGit tail ∧
      (cs = sshPfx ++ owner ++ '/' :: tail ∨ cs = httpsPfx ++ owner ++ '/' :: tail ∨
       cs = httpPfx ++ owner ++ '/' :: tail) := by
  unfold parseGitHubRepoL at h
  have hsplit : ∀ (pfx : List Char), cs.take pfx.length = pfx →
      cs = pfx ++ cs.drop pfx.length := by
    intro pfx hp
    conv_lhs => rw [← List.take_append_drop pfx.length cs]
    rw [hp]
  split_ifs at h with h1 h2 h3
  · rcases parseOwnerRepoL_sound _ _ h with ⟨o, t, ho, ho2, ht, ht2, hr, hcs⟩
    refine ⟨o, t, ho, ho2, ht, ht2, hr, Or.inl ?_⟩
    rw [hsplit sshPfx h1, hcs, List.append_assoc]
  · rcases parseOwnerRepoL_sound _ _ h with ⟨o, t, ho, ho2, ht, ht2, hr, hcs⟩
    refine ⟨o, t, ho, ho2, ht, ht2, hr, Or.inr (Or.inl ?_)⟩
    rw [hsplit httpsPfx h2, hcs, List.append_assoc]
  · rcases parseOwnerRepoL_sound _ _ h with ⟨o, t, ho, ho2, ht, ht2, hr, hcs⟩
    refine ⟨o, t, ho, ho2, ht, ht2, hr, Or.inr (Or.inr ?_)⟩
    rw [hsplit httpPfx h3, hcs, List.append_assoc]

/-- C8: `parseGitHubRepo` maps exactly the two accepted shapes to an
`owner/repo` string — the SSH shape `git@github.com:owner/repo` and the
HTTP(S) shape `http(s)://github.com/owner/repo`, each with an optional
stripped `.git` suffix, owner and repo non-empty and free of `/`, and only
the fixed host `github.com` accepted (any `some` result is produced from one
of the three literal prefixes); the given SSH and HTTPS examples parse to
`acme/widgets` and the `gitlab.com` host parses to nothing. -/
theorem parseGitHubRepo_spec :
    parseGitHubRepo "git@github.com:acme/widgets.git" = some "acme/widgets" ∧
    parseGitHubRepo "https://github.com/acme/widgets" = some "acme/widgets" ∧
    parseGitHubRepo "git@gitlab.com:acme/widgets" = none ∧
    ∀ cs r, parseGitHubRepoL cs = some r →
      ∃ owner tail, owner ≠ [] ∧ ¬ '/' ∈ owner ∧ tail ≠ [] ∧ ¬ '/' ∈ tail ∧
        r = owner ++ '/' :: stripDotGit tail ∧
        (cs = sshPfx ++ owner ++ '/' :: tail ∨ cs = httpsPfx ++ owner ++ '/' :: tail ∨
         cs = httpPfx ++ owner ++ '/' :: tail) :=
  ⟨by decide, by decide, by decide, parseGitHubRepoL_sound⟩

/-- Witness for C8's soundness conjunct at a concrete SSH-shaped input. -/
theorem parseGitHubRepo_spec_witness :
    ∃ owner tail, owner ≠ [] ∧ ¬ '/' ∈ owner ∧ tail ≠ [] ∧ ¬ '/' ∈ tail ∧
      "a/b".data = owner ++ '/' :: stripDotGit tail ∧
      ("git@github.com:a/b".data = sshPfx ++ owner ++ '/' :: tail ∨
       "git@github.com:a/b".data = httpsPfx ++ owner ++ '/' :: tail ∨
       "git@github.com:a/b".data = httpPfx ++ owner ++ '/' :: tail) :=
  parseGitHubRepo_spec.2.2.2 "git@github.com:a/b".data "a/b".data (by decide)

-- ## C9: scanner traversal and result shape

theorem mem_dedupKeepFirst : ∀ (l : List String) (a : String),
    a ∈ dedupKeepFirst l ↔ a ∈ l := by
  intro l
  induction l using dedupKeepFirst.induct with
  | case1 => simp [dedupKeepFirst]
  | case2 x xs ih =>
    intro a
    rw [dedupKeepFirst]
    constructor
    · intro h
      rcases List.mem_cons.mp h with rfl | h
      · exact List.mem_cons_self _ _
      · have h2 := (ih a).mp h
        exact List.mem_cons.mpr (Or.inr (List.mem_filter.mp h2).1)
    · intro h
      rcases List.mem_cons.mp h with rfl | h
      · exact List.mem_cons_self _ _
      · by_cases hax : a = x
        · subst hax
          exact List.mem_cons_self _ _
        · exact List.mem_cons.mpr (Or.inr ((ih a).mpr
            (List.mem_filter.mpr ⟨h, by simp [hax]⟩)))

theorem nodup_dedupKeepFirst : ∀ l : List String, (dedupKeepFirst l).Nodup := by
  intro l
  induction l using dedupKeepFirst.induct with
  | case1 => simp [dedupKeepFirst]
  | case2 x xs ih =>
    rw [dedupKeepFirst]
    refine List.nodup_cons.mpr ⟨fun hc => ?_, ih⟩
    have h2 := (mem_dedupKeepFirst _ x).mp hc
    have h3 := (List.mem_filter.mp h2).2
    simp at h3

/-- C9: on the tree `root/repoA/.git`, `root/repoA/nested/.git`,
`root/node_modules/.git`, the breadth-first traversal records exactly the one
repository root `repoA` — the marker directory stops descent (the nested
marker is never visited) and `node_modules` is pruned before its marker is
ever checked — and for every tree and origin oracle the final result is the
deduplicated set of parsed `owner/repo` candidates in ascending lexical
order. -/
theorem scanForGitRepos_spec :
    findGitRoots [([], exTree)] = [["repoA"]] ∧
    ∀ (fs : FSTree) (origin : List String → Option String),
      (scanForGitRepos fs origin).Sorted (fun a b => a ≤ b) ∧
      (scanForGitRepos fs origin).Nodup ∧
      (∀ s, s ∈ scanForGitRepos fs origin ↔ s ∈ scanCandidates fs origin) := by
  constructor
  · rw [findGitRoots]
    rw [if_neg (show ¬ exTree.hasGitMarker = true by decide)]
    show findGitRoots [(["repoA"], FSTree.node [(".git", true, .node []),
      ("nested", true, .node [(".git", true, .node [])])])] = [["repoA"]]
    rw [findGitRoots]
    rw [if_pos (by decide)]
    rw [findGitRoots]
  · intro fs origin
    have hperm : List.Perm (scanForGitRepos fs origin)
        (dedupKeepFirst (scanCandidates fs origin)) :=
      List.perm_insertionSort _ _
    refine ⟨List.sorted_insertionSort _ _, ?_, fun s => ?_⟩
    · exact hperm.nodup_iff.mpr (nodup_dedupKeepFirst _)
    · exact Iff.trans hperm.mem_iff (mem_dedupKeepFirst _ s)

